import Mathlib

/-!
Verification development for the news-bot automation script (`src/index.js`).

The script's core is shallowly embedded here:
* a model of JavaScript's `JSON.parse` on an inductive `Json` type (fuel-based
  recursive descent, structural on the fuel so that it evaluates by `rfl`);
* the tolerant extraction pipeline of `fetchNews` (trim, strip code fences,
  slice between the first `\x7b` and the last `\x7d`, parse, check the `news`
  field is an array);
* the two persisted history stores and `saveHeadlines` (append, cap at 50/20,
  with the error handling of its `try/catch`);
* the HTML renderer `generateHtml` and the run-cycle orchestration `runBot`.

JavaScript property access `o.k` throws a `TypeError` when the receiver is
`null`; that is modelled with `Except Unit`, since such a throw is observable
(it aborts `generateHtml` and hence a whole run cycle).
-/

namespace NewsBot

/-- JSON values, as produced by JavaScript's `JSON.parse`.  Numbers keep their
raw lexeme (the script never computes with them). -/
inductive Json where
  | null
  | bool (b : Bool)
  | num (raw : String)
  | str (s : String)
  | arr (elems : List Json)
  | obj (fields : List (String × Json))

/-- Property lookup on a parsed JSON value, JavaScript style: on an object the
last binding of the key wins (`JSON.parse` keeps the last duplicate key);
any other non-`null` receiver yields `undefined` (`none`). -/
def jsLookup : Json → String → Option Json
  | .obj fields, key => (fields.reverse.find? (fun p => p.1 == key)).map (fun p => p.2)
  | _, _ => none

/-- JavaScript property access `o.k`: a `TypeError` (modelled `.error ()`) when
the receiver is `null`; otherwise `jsLookup` (with `none` for `undefined`). -/
def jsGet (j : Json) (key : String) : Except Unit (Option Json) :=
  match j with
  | .null => .error ()
  | _ => .ok (jsLookup j key)

/-- The JSON whitespace characters (also those of `String.prototype.trim` that
the script's inputs can contain). -/
def isJsonWs (c : Char) : Bool := c = ' ' || c = '\t' || c = '\n' || c = '\r'

/-- Drop leading JSON whitespace. -/
def wsSkip (cs : List Char) : List Char := cs.dropWhile isJsonWs

/-- Value of one hexadecimal digit. -/
def hexDigit (c : Char) : Option Nat :=
  if '0' ≤ c ∧ c ≤ '9' then some (c.toNat - 48)
  else if 'a' ≤ c ∧ c ≤ 'f' then some (c.toNat - 87)
  else if 'A' ≤ c ∧ c ≤ 'F' then some (c.toNat - 55)
  else none

/-- The single-character JSON string escapes. -/
def escMap (c : Char) : Option Char :=
  if c = '"' then some '"'
  else if c = '\\' then some '\\'
  else if c = '/' then some '/'
  else if c = 'b' then some (Char.ofNat 8)
  else if c = 'f' then some (Char.ofNat 12)
  else if c = 'n' then some '\n'
  else if c = 'r' then some '\r'
  else if c = 't' then some '\t'
  else none

/-- Body of a JSON string literal, after the opening quote: the decoded
characters and the remaining input after the closing quote.  Raw control
characters are rejected, as `JSON.parse` rejects them. -/
def strBody : List Char → Option (List Char × List Char)
  | [] => none
  | c :: rest =>
    if c = '"' then some ([], rest)
    else if c = '\\' then
      match rest with
      | 'u' :: h1 :: h2 :: h3 :: h4 :: r =>
        match hexDigit h1, hexDigit h2, hexDigit h3, hexDigit h4 with
        | some a, some b, some c2, some d =>
          match strBody r with
          | some (s, r2) => some (Char.ofNat (((a * 16 + b) * 16 + c2) * 16 + d) :: s, r2)
          | none => none
        | _, _, _, _ => none
      | e :: r =>
        match escMap e with
        | some d =>
          match strBody r with
          | some (s, r2) => some (d :: s, r2)
          | none => none
        | none => none
      | [] => none
    else if c.toNat < 32 then none
    else
      match strBody rest with
      | some (s, r2) => some (c :: s, r2)
      | none => none

/-- Longest digit run at the front of the input. -/
def digitSpan (cs : List Char) : List Char × List Char :=
  (cs.takeWhile Char.isDigit, cs.dropWhile Char.isDigit)

/-- A JSON number lexeme (`-? int frac? exp?`).  A malformed fraction or
exponent tail is left unconsumed; the stray characters then make the enclosing
context fail exactly as `JSON.parse` does. -/
def numLex (cs : List Char) : Option (List Char × List Char) :=
  let p : List Char × List Char := match cs with
    | '-' :: r => (['-'], r)
    | _ => ([], cs)
  match p.2 with
  | c :: cs1 =>
    if c.isDigit then
      let q := if c = '0' then (['0'], cs1) else digitSpan p.2
      let f : List Char × List Char := match q.2 with
        | '.' :: r =>
          if (r.headD 'x').isDigit then
            let ds := digitSpan r
            ('.' :: ds.1, ds.2)
          else ([], q.2)
        | _ => ([], q.2)
      let e : List Char × List Char := match f.2 with
        | e0 :: r =>
          if e0 = 'e' ∨ e0 = 'E' then
            let sg : List Char × List Char := match r with
              | s0 :: r2 => if s0 = '+' ∨ s0 = '-' then ([s0], r2) else ([], r)
              | [] => ([], r)
            if (sg.2.headD 'x').isDigit then
              let ds := digitSpan sg.2
              (e0 :: (sg.1 ++ ds.1), ds.2)
            else ([], f.2)
          else ([], f.2)
        | [] => ([], f.2)
      some (p.1 ++ q.1 ++ f.1 ++ e.1, e.2)
    else none
  | [] => none

/-- One JSON value from the front of the input, recursive descent with fuel
(structural on the fuel, so closed calls evaluate by `rfl`).  After an array
element (resp. object member) and a comma, the remainder of the array (resp.
object) is parsed by re-entering the same function on the remainder prefixed
with `[` (resp. `\x7b`) and consing the element onto the result; a trailing
comma is rejected first, as `JSON.parse` rejects it. -/
def jsonVal : Nat → List Char → Option (Json × List Char)
  | 0, _ => none
  | fuel + 1, input =>
    match wsSkip input with
    | [] => none
    | c :: rest =>
      if c = 'n' then
        match rest with
        | 'u' :: 'l' :: 'l' :: r => some (.null, r)
        | _ => none
      else if c = 't' then
        match rest with
        | 'r' :: 'u' :: 'e' :: r => some (.bool true, r)
        | _ => none
      else if c = 'f' then
        match rest with
        | 'a' :: 'l' :: 's' :: 'e' :: r => some (.bool false, r)
        | _ => none
      else if c = '"' then
        match strBody rest with
        | some (s, r) => some (.str (String.mk s), r)
        | none => none
      else if c = '[' then
        match wsSkip rest with
        | ']' :: r => some (.arr [], r)
        | rest2 =>
          match jsonVal fuel rest2 with
          | some (v, r1) =>
            match wsSkip r1 with
            | ',' :: r2 =>
              if (wsSkip r2).headD ' ' = ']' then none
              else
                match jsonVal fuel ('[' :: r2) with
                | some (.arr vs, r3) => some (.arr (v :: vs), r3)
                | _ => none
            | ']' :: r2 => some (.arr [v], r2)
            | _ => none
          | none => none
      else if c = '\x7b' then
        match wsSkip rest with
        | '\x7d' :: r => some (.obj [], r)
        | '"' :: r =>
          match strBody r with
          | some (k, r1) =>
            match wsSkip r1 with
            | ':' :: r2 =>
              match jsonVal fuel r2 with
              | some (v, r3) =>
                match wsSkip r3 with
                | ',' :: r4 =>
                  if (wsSkip r4).headD ' ' = '\x7d' then none
                  else
                    match jsonVal fuel ('\x7b' :: r4) with
                    | some (.obj fs, r5) => some (.obj ((String.mk k, v) :: fs), r5)
                    | _ => none
                | '\x7d' :: r4 => some (.obj [(String.mk k, v)], r4)
                | _ => none
              | none => none
            | _ => none
          | none => none
        | _ => none
      else
        match numLex (c :: rest) with
        | some (lex, r) => some (.num (String.mk lex), r)
        | none => none

/-- `JSON.parse`: one value, then only whitespace may remain.  The fuel
`length + 16` is enough because every recursive call of `jsonVal` strictly
shrinks the input (the `[`/`\x7b` re-entries consume at least an element and
a comma while adding one character). -/
def jsonParse (cs : List Char) : Option Json :=
  match jsonVal (cs.length + 16) cs with
  | some (v, r) => if wsSkip r = [] then some v else none
  | none => none

/-- `text.replace(pat, '')` for a global plain-text pattern, scanning left to
right and resuming after each removed occurrence; the fuel is the input
length (each step consumes at least one character). -/
def fenceStrip (pat : List Char) : Nat → List Char → List Char
  | 0, s => s
  | f + 1, s =>
    match s with
    | [] => []
    | c :: cs =>
      if pat.isPrefixOf (c :: cs) then fenceStrip pat f ((c :: cs).drop pat.length)
      else c :: fenceStrip pat f cs

/-- `text.replace(/pat/g, '')` on a character list. -/
def replaceAllStr (pat : String) (s : List Char) : List Char :=
  fenceStrip pat.data s.length s

/-- `String.prototype.trim`. -/
def jsTrim (s : List Char) : List Char :=
  ((s.dropWhile isJsonWs).reverse.dropWhile isJsonWs).reverse

/-- `String.prototype.lastIndexOf` for a single character. -/
def lastIdxOf (c : Char) (s : List Char) : Option Nat :=
  match s.reverse.findIdx? (· = c) with
  | some i => some (s.length - 1 - i)
  | none => none

/-- `String.prototype.substring`: the arguments are clamped to the string's
bounds and swapped when the start exceeds the end. -/
def jsSubstring (s : List Char) (a b : Nat) : List Char :=
  let a' := min a s.length
  let b' := min b s.length
  (s.take (max a' b')).drop (min a' b')

/-- The extraction pipeline of `fetchNews` (src/index.js lines 176-200), from
the raw model response onwards: trim, delete every ``` ```json ``` and ``` ``` ```
fence marker, slice from the first `\x7b` to the last `\x7d` when both exist,
`JSON.parse`, then require a `news` field holding an array.  Every failure
(including the `TypeError` of `parsed.news` on a `null` parse result) is
caught by the surrounding `try` and becomes the `null` sentinel (`none`). -/
def extractNews (fullContent : String) : Option (List Json) :=
  let js0 := jsTrim fullContent.data
  let js1 := replaceAllStr "```json" js0
  let js2 := replaceAllStr "```" js1
  let js3 :=
    match js2.findIdx? (· = '\x7b'), lastIdxOf '\x7d' js2 with
    | some a, some b => jsSubstring js2 a (b + 1)
    | _, _ => js2
  match jsonParse js3 with
  | none => none
  | some parsed =>
    match jsGet parsed "news" with
    | .error _ => none
    | .ok none => none
    | .ok (some v) =>
      match v with
      | .arr items => some items
      | _ => none

/-- Literal segment of the template string in `generateHtml` (src/index.js 213-270). -/
def cardPre : String :=
  "\n        <div style=\"background: #fff; border-right: 4px solid "

/-- Literal segment of the template string in `generateHtml` (src/index.js 213-270). -/
def cardMid1 : String :=
  "; padding: 15px; margin-bottom: 15px; border-radius: 8px; box-shadow: 0 2px 5px rgba(0,0,0,0.05);\">\n            <h3 style=\"margin: 0 0 8px 0; color: #333; font-size: 18px;\">"

/-- Literal segment of the template string in `generateHtml` (src/index.js 213-270). -/
def cardMid2 : String :=
  "</h3>\n            <p style=\"margin: 0; color: #666; font-size: 14px; line-height: 1.5;\">"

/-- Literal segment of the template string in `generateHtml` (src/index.js 213-270). -/
def cardPost : String :=
  "</p>\n        </div>\n    "

/-- Literal segment of the template string in `generateHtml` (src/index.js 213-270). -/
def frameA : String :=
  "\n        <!DOCTYPE html>\n        <html lang=\"ur\" dir=\"rtl\">\n        <head>\n            <meta charset=\"UTF-8\">\n        </head>\n        <body style=\"font-family: \x27Arial\x27, sans-serif; background-color: #f4f4f4; margin: 0; padding: 20px;\">\n            <div style=\"max-width: 600px; margin: 0 auto; background: #ffffff; padding: 0; border-radius: 12px; box-shadow: 0 4px 15px rgba(0,0,0,0.1); overflow: hidden;\">\n                \n                <!-- Header with Logo -->\n                <div style=\"background: linear-gradient(135deg, #1e3c72 0%, #2a5298 100%); padding: 30px 20px; text-align: center;\">\n                    <img src=\""

/-- Literal segment of the template string in `generateHtml` (src/index.js 213-270). -/
def frameB : String :=
  "\" alt=\"NovaBot Logo\" style=\"width: 64px; height: 64px; margin-bottom: 10px; background: white; padding: 8px; border-radius: 50%;\">\n                    <h1 style=\"color: #ffffff; margin: 0; font-size: 24px; font-weight: bold;\">NovaBot News</h1>\n                    <p style=\"color: #aaccff; margin: 5px 0 0 0; font-size: 14px;\">"

/-- Literal segment of the template string in `generateHtml` (src/index.js 213-270). -/
def frameC : String :=
  "</p>\n                </div>\n\n                <div style=\"padding: 20px;\">\n                    <h2 style=\"color: #333; text-align: center; margin-bottom: 25px; font-size: 18px; border-bottom: 1px solid #eee; padding-bottom: 10px;\">ğŸ“° ØªØ§Ø²Û ØªØ±ÛŒÙ† Ø®Ø¨Ø±ÛŒÚº (Latest Updates)</h2>\n\n                    "

/-- Literal segment of the template string in `generateHtml` (src/index.js 213-270). -/
def frameD : String :=
  "\n\n                    "

/-- Literal segment of the template string in `generateHtml` (src/index.js 213-270). -/
def frameE : String :=
  "\n                </div>\n\n                <!-- Footer -->\n                <div style=\"background: #f8f9fa; padding: 20px; text-align: center; border-top: 1px solid #eee; color: #888; font-size: 12px;\">\n                    <p style=\"margin: 0;\">Automated by <strong>NovaBot</strong></p>\n                    <p style=\"margin: 5px 0 0 0;\">Powered by OpenRouter & Node.js</p>\n                </div>\n            </div>\n        </body>\n        </html>\n    "

/-- Literal segment of the template string in `generateHtml` (src/index.js 213-270). -/
def goodHdr : String :=
  "\n                        <h3 style=\"color: #27ae60; margin-top: 10px; display: flex; align-items: center; gap: 10px;\">\n                            <span>ğŸ’š</span> Ø®ÙˆØ´Ø®Ø¨Ø±ÛŒ (Good News)\n                        </h3>\n                        "

/-- Literal segment of the template string in `generateHtml` (src/index.js 213-270). -/
def goodTail : String :=
  "\n                    "

/-- Literal segment of the template string in `generateHtml` (src/index.js 213-270). -/
def shockHdr : String :=
  "\n                        <h3 style=\"color: #c0392b; margin-top: 30px; display: flex; align-items: center; gap: 10px;\">\n                            <span>âš ï¸</span> Ù„Ø±Ø²Û Ø®ÛŒØ² Ø®Ø¨Ø±ÛŒÚº (Shocking News)\n                        </h3>\n                        "

/-- Literal segment of the template string in `generateHtml` (src/index.js 213-270). -/
def shockTail : String :=
  "\n                    "

mutual

/-- JavaScript `String(x)` as template-literal interpolation uses it: arrays
join their elements with commas, plain objects print as `[object Object]`. -/
def jsToString : Json → String
  | .null => "null"
  | .bool true => "true"
  | .bool false => "false"
  | .num raw => raw
  | .str s => s
  | .arr elems => jsArrToString elems
  | .obj _ => "[object Object]"

/-- `Array.prototype.toString`: the elements joined with commas. -/
def jsArrToString : List Json → String
  | [] => ""
  | [e] => jsElemToString e
  | e :: es => jsElemToString e ++ "," ++ jsArrToString es

/-- One joined array element: `null` prints as the empty string inside an
array. -/
def jsElemToString : Json → String
  | .null => ""
  | e => jsToString e

end

/-- What `${x}` interpolates for a property read: `undefined` prints as the
text `undefined`. -/
def jsDisplay : Option Json → String
  | none => "undefined"
  | some j => jsToString j

/-- `createCard` (src/index.js 220-225): one HTML card with the item's title
and summary interpolated.  Total: every caller has already established that
the item is not `null`, so the property reads cannot throw. -/
def createCard (item : Json) (color : String) : String :=
  cardPre ++ color ++ cardMid1 ++ jsDisplay (jsLookup item "title")
    ++ cardMid2 ++ jsDisplay (jsLookup item "summary") ++ cardPost

/-- `v === 'tag'` for the value of a `type` property: strict equality of a
JSON value against a string. -/
def isTypeVal (tag : String) : Option Json → Bool
  | some (.str s) => s == tag
  | _ => false

/-- The filter callback `item => item.type === 'tag'`, with the `TypeError`
it throws on a `null` item. -/
def typeTestE (tag : String) (item : Json) : Except Unit Bool :=
  match jsGet item "type" with
  | .error e => .error e
  | .ok v => .ok (isTypeVal tag v)

/-- `item.type === 'tag'` as the total predicate it is on non-`null` items. -/
def isType (tag : String) (item : Json) : Bool := isTypeVal tag (jsLookup item "type")

/-- `Array.prototype.filter`, with a callback that can throw: elements are
visited left to right and the first throw aborts the whole call. -/
def filterE (p : Json → Except Unit Bool) : List Json → Except Unit (List Json)
  | [] => .ok []
  | a :: as =>
    match p a with
    | .error e => .error e
    | .ok b =>
      match filterE p as with
      | .error e => .error e
      | .ok l => .ok (if b then a :: l else l)

/-- The `${LOGO_URL}` constant. -/
def logoUrl : String := "https://cdn-icons-png.flaticon.com/512/3208/3208726.png"

/-- The conditional good-news block of the template (header, the joined
cards, closing whitespace). -/
def goodSection (cards : String) : String := goodHdr ++ cards ++ goodTail

/-- The conditional shocking-news block of the template. -/
def shockSection (cards : String) : String := shockHdr ++ cards ++ shockTail

/-- The document skeleton around the two conditional blocks. -/
def htmlFrame (now goodBlock shockBlock : String) : String :=
  frameA ++ logoUrl ++ frameB ++ now ++ frameC ++ goodBlock ++ frameD ++ shockBlock ++ frameE

/-- `goodNews.map(item => createCard(item, color)).join('')`. -/
def cardsJoin (items : List Json) (color : String) : String :=
  String.join (items.map (fun item => createCard item color))

/-- `generateHtml` (src/index.js 213-270): partition by the `type` field,
render each non-empty section.  The two `filter` calls evaluate `item.type`
on every element, so a `null` element makes the whole function throw — there
is no `try` anywhere on this path.  Once the filters succeeded, the kept
items are objects (their `type` is a string), so the interpolated property
reads inside `createCard` cannot throw. -/
def generateHtml (newsItems : List Json) (now : String) : Except Unit String :=
  match filterE (typeTestE "good") newsItems with
  | .error e => .error e
  | .ok goodNews =>
    match filterE (typeTestE "shocking") newsItems with
    | .error e => .error e
    | .ok shockingNews =>
      .ok (htmlFrame now
        (if goodNews.length > 0 then goodSection (cardsJoin goodNews "#27ae60") else "")
        (if shockingNews.length > 0 then shockSection (cardsJoin shockingNews "#c0392b") else ""))

/-- State of one persisted JSON file: absent, present but not parseable, or
present with a parsed array of values. -/
inductive FileState where
  | missing
  | corrupt
  | ok (content : List Json)

/-- `getPastHeadlines` (src/index.js 81-91): a missing file yields `[]`, and a
parse error is caught, logged and also yields `[]`. -/
def getPastHeadlines : FileState → List Json
  | .missing => []
  | .corrupt => []
  | .ok content => content

/-- The `/api/data` handler's read of `dashboard_history.json` (src/index.js
45-50): missing or unparsable files are served as the empty history. -/
def apiDashboardHistory : FileState → List Json
  | .missing => []
  | .corrupt => []
  | .ok content => content

/-- `newsItems.map(n => n.title)`: throws on a `null` item; an absent title is
`undefined`, which `JSON.stringify` writes as JSON `null` inside the stored
array, so it round-trips to `Json.null` in the file. -/
def titlesOf : List Json → Except Unit (List Json)
  | [] => .ok []
  | n :: ns =>
    match jsGet n "title" with
    | .error e => .error e
    | .ok t =>
      match titlesOf ns with
      | .error e => .error e
      | .ok ts => .ok (t.getD Json.null :: ts)

/-- The stored title of one non-`null` item: its `title` property, with
`undefined` stored as JSON `null` (what `titlesOf` produces elementwise when
it does not throw). -/
def titleOf (n : Json) : Json := (jsLookup n "title").getD Json.null

/-- The last `n` entries of a list (`slice(length - n)` in the script). -/
def takeLast (n : Nat) (l : List α) : List α := l.drop (l.length - n)

/-- `saveHeadlines` (src/index.js 93-115) acting on the two persisted files,
following the control flow of its single `try`:

1. read the headline history (recovering internally via `getPastHeadlines`),
   map the titles (`n.title` throws on a `null` item, before either file was
   written), append, keep the last 50, write the headline file;
2. read the dashboard file — this `JSON.parse` is **not** guarded separately,
   so an unparsable dashboard file throws to the outer catch *after* the
   headline file was already written, leaving the dashboard file untouched;
3. append the full items, keep the last 20, write the dashboard file.

The outer catch only logs, so the caller never sees a throw. -/
def saveHeadlines (hist dash : FileState) (newsItems : List Json) : FileState × FileState :=
  match titlesOf newsItems with
  | .error _ => (hist, dash)
  | .ok newTitles =>
    let history := getPastHeadlines hist ++ newTitles
    let history := if history.length > 50 then history.drop (history.length - 50) else history
    let hist' := FileState.ok history
    match dash with
    | .corrupt => (hist', .corrupt)
    | .missing =>
      let d := ([] : List Json) ++ newsItems
      (hist', .ok (if d.length > 20 then d.drop (d.length - 20) else d))
    | .ok content =>
      let d := content ++ newsItems
      (hist', .ok (if d.length > 20 then d.drop (d.length - 20) else d))

/-- A well-formed news record as the spec's data model describes it (the
JSON field carrying the category is named `type` in the script). -/
structure NewsItem where
  title : String
  summary : String
  category : String

/-- The JSON object for a `NewsItem`, in the field layout the generator is
prompted to produce. -/
def NewsItem.toJson (it : NewsItem) : Json :=
  .obj [("title", .str it.title), ("summary", .str it.summary), ("type", .str it.category)]

/-- A sequence of persistence calls starting from fresh stores; the full
logical history of the sequence is `batches.flatten`. -/
def runAppends (batches : List (List NewsItem)) : FileState × FileState :=
  batches.foldl
    (fun st batch => saveHeadlines st.1 st.2 (batch.map NewsItem.toJson))
    (.ok [], .ok [])

/-- `sendEmail` (src/index.js 273-290) never throws to its caller: its
`try/catch` logs a dispatch failure and falls through, for success and
failure alike.  The boolean records which of the two happened. -/
def sendEmailResult (mailDispatchOk : Bool) : Except Unit Unit :=
  match mailDispatchOk with
  | true => .ok ()
  | false => .ok ()

/-- The persistent and scheduling state a run cycle can change. -/
structure BotState where
  hist : FileState
  dash : FileState
  nextRunTime : Option Int

/-- One `runBot` cycle (src/index.js 293-313).  `fetchResult` is the raw text
the generator call produced (`none` for a network error, a non-2xx status or
a malformed response envelope — all caught inside `fetchNews` and turned into
its `null` sentinel); `renderTime` is the clock string the renderer embeds
and `now` the clock at the end of the cycle.  A `TypeError` escaping
`generateHtml` rejects the `runBot` promise: nothing later in the cycle runs,
not even the `nextRunTime` update. -/
def runBot (st : BotState) (fetchResult : Option String) (mailDispatchOk : Bool)
    (renderTime : String) (now : Int) : BotState :=
  let newsItems := match fetchResult with
    | none => none
    | some content => extractNews content
  match newsItems with
  | some items =>
    if items.length > 0 then
      match generateHtml items renderTime with
      | .error _ => st
      | .ok _html =>
        match sendEmailResult mailDispatchOk with
        | .error _ => st
        | .ok _ =>
          let p := saveHeadlines st.hist st.dash items
          { hist := p.1, dash := p.2, nextRunTime := some (now + 10 * 60000) }
    else { st with nextRunTime := some (now + 10 * 60000) }
  | none => { st with nextRunTime := some (now + 10 * 60000) }

/-- Canonical JSON escape of one character: only `"` and `\` need escaping in
a minimal rendering of fence-free printable text. -/
def escJsonChar (c : Char) : List Char :=
  if c = '"' then ['\\', '"'] else if c = '\\' then ['\\', '\\'] else [c]

/-- Canonical JSON escape of a character list. -/
def escJson : List Char → List Char
  | [] => []
  | c :: cs => escJsonChar c ++ escJson cs

/-- A minimal JSON string literal. -/
def strLit (s : String) : List Char := '"' :: (escJson s.data ++ ['"'])

/-- Modelled from the spec: the comma-separated members of a minimal JSON
object whose values are all strings. -/
def fieldsText : List (String × String) → List Char
  | [] => []
  | [(k, v)] => strLit k ++ ':' :: strLit v
  | (k, v) :: rest => strLit k ++ ':' :: strLit v ++ ',' :: fieldsText rest

/-- Modelled from the spec: a minimal JSON object with string values. -/
def objText (fields : List (String × String)) : List Char :=
  '\x7b' :: (fieldsText fields ++ ['\x7d'])

/-- Modelled from the spec: the minimal JSON text of one news record. -/
def itemText (it : NewsItem) : List Char :=
  objText [("title", it.title), ("summary", it.summary), ("type", it.category)]

/-- Modelled from the spec: the comma-separated array elements. -/
def itemsText : List NewsItem → List Char
  | [] => []
  | [it] => itemText it
  | it :: rest => itemText it ++ ',' :: itemsText rest

/-- Modelled from the spec: "a minimal valid JSON object with a `news` array"
— the canonical compact rendering, with no surrounding prose, fences or
extra braces. -/
def minimalNewsText (items : List NewsItem) : String :=
  String.mk ('\x7b' :: (strLit "news" ++ ':' :: '[' :: (itemsText items ++ [']', '\x7d'])))

/-- Fence-free printable text: no backtick (so the fence stripping cannot
touch it) and no control characters (so it is valid raw inside a minimal
JSON string literal). -/
def cleanStr (s : String) : Prop := ∀ c ∈ s.data, c ≠ '`' ∧ 32 ≤ c.toNat

/-- All three fields of the record are fence-free printable text. -/
def cleanItem (it : NewsItem) : Prop :=
  cleanStr it.title ∧ cleanStr it.summary ∧ cleanStr it.category


/-- Clean printable fields: every key and value character is printable. -/
def cleanFields (fields : List (String × String)) : Prop :=
  ∀ p ∈ fields, (∀ c ∈ p.1.data, 32 ≤ c.toNat) ∧ (∀ c ∈ p.2.data, 32 ≤ c.toNat)

/-! ## Helper lemmas -/

theorem takeLast_eq_self {n : Nat} {l : List α} (h : l.length ≤ n) : takeLast n l = l := by
  simp [takeLast, Nat.sub_eq_zero_of_le h]

theorem length_takeLast_le (n : Nat) (l : List α) : (takeLast n l).length ≤ n := by
  simp only [takeLast, List.length_drop]
  omega

theorem trim_eq_takeLast (n : Nat) (l : List α) :
    (if l.length > n then l.drop (l.length - n) else l) = takeLast n l := by
  by_cases h : l.length > n
  · simp [h, takeLast]
  · simp only [h, if_false, takeLast, Nat.sub_eq_zero_of_le (by omega : l.length ≤ n),
      List.drop_zero]

theorem takeLast_append_takeLast (n : Nat) (xs ys : List α) :
    takeLast n (takeLast n xs ++ ys) = takeLast n (xs ++ ys) := by
  simp only [takeLast, List.drop_append_eq_append_drop, List.length_append, List.length_drop,
    List.drop_drop]
  congr 1
  · congr 1
    omega
  · congr 1
    omega

theorem jsGet_of_ne_null (j : Json) (key : String) (h : j ≠ .null) :
    jsGet j key = .ok (jsLookup j key) := by
  cases j with
  | null => exact absurd rfl h
  | bool b => rfl
  | num raw => rfl
  | str s => rfl
  | arr elems => rfl
  | obj fields => rfl

theorem titlesOf_eq_map (items : List Json) (hn : Json.null ∉ items) :
    titlesOf items = .ok (items.map titleOf) := by
  induction items with
  | nil => rfl
  | cons n ns ih =>
    have hn1 : n ≠ Json.null := fun e => hn (e ▸ List.mem_cons_self n ns)
    have hns : Json.null ∉ ns := fun m => hn (List.mem_cons_of_mem _ m)
    simp only [titlesOf, jsGet_of_ne_null n "title" hn1, ih hns, List.map_cons, titleOf]

/-! ## Claim theorems -/

/-- C4: on a response that wraps the JSON object in a ```` ```json ````-tagged
code fence with prose before and after it, extraction succeeds and returns
the one-element news array, whose single record has title "A". -/
theorem C4_fenced_extraction :
    extractNews "Sure! ```json\n\x7b\"news\":[\x7b\"title\":\"A\",\"summary\":\"B\",\"category\":\"good\"\x7d]\x7d\n```\nHope that helps!" =
      some [Json.obj [("title", Json.str "A"), ("summary", Json.str "B"),
        ("category", Json.str "good")]] ∧
    jsGet (Json.obj [("title", Json.str "A"), ("summary", Json.str "B"),
        ("category", Json.str "good")]) "title" = .ok (some (Json.str "A")) :=
  ⟨rfl, rfl⟩

/-- C5: the extractor is a total function into an option — failure is the
`null` sentinel (`none`), never an exception across the orchestration
boundary — and it returns the sentinel both for "no json here" (no braces)
and for an object without a `news` field. -/
theorem C5_failure_sentinel (s : String) :
    extractNews "no json here" = none ∧
    extractNews "\x7b\"foo\": 1\x7d" = none ∧
    (extractNews s = none ∨ ∃ items, extractNews s = some items) := by
  refine ⟨rfl, rfl, ?_⟩
  cases h : extractNews s with
  | none => exact Or.inl rfl
  | some items => exact Or.inr ⟨items, rfl⟩

/-- C2: a run cycle whose generator call failed (the `fetchNews` sentinel,
covering network failures, non-2xx statuses and malformed envelopes) or whose
extraction produced no usable news leaves both history stores untouched and
still sets the next-run timestamp to the cycle's completion time plus the
fixed 10-minute interval. -/
theorem C2_failed_cycle_frame (st : BotState) (mailOk : Bool) (t : String)
    (now : Int) (content : String)
    (hfail : extractNews content = none ∨ extractNews content = some []) :
    (runBot st none mailOk t now).hist = st.hist ∧
    (runBot st none mailOk t now).dash = st.dash ∧
    (runBot st none mailOk t now).nextRunTime = some (now + 10 * 60000) ∧
    (runBot st (some content) mailOk t now).hist = st.hist ∧
    (runBot st (some content) mailOk t now).dash = st.dash ∧
    (runBot st (some content) mailOk t now).nextRunTime = some (now + 10 * 60000) := by
  rcases hfail with h | h <;> simp [runBot, h]

/-- C2 witness: a concrete failed cycle (extraction fails on "no json here")
over concrete stores. -/
theorem C2_failed_cycle_frame_witness :
    extractNews "no json here" = none ∧
    (runBot ⟨FileState.ok [], FileState.corrupt, none⟩ (some "no json here") true "t" 0).hist
      = FileState.ok [] ∧
    (runBot ⟨FileState.ok [], FileState.corrupt, none⟩ (some "no json here") true "t" 0).nextRunTime
      = some (0 + 10 * 60000) :=
  ⟨rfl,
   (C2_failed_cycle_frame ⟨FileState.ok [], FileState.corrupt, none⟩ true "t" 0
      "no json here" (Or.inl rfl)).2.2.2.1,
   (C2_failed_cycle_frame ⟨FileState.ok [], FileState.corrupt, none⟩ true "t" 0
      "no json here" (Or.inl rfl)).2.2.2.2.2⟩

/-- C3 counterexample: with an unparsable digest-history file, the
persistence step does **not** append the cycle's new item to the digest
store — `saveHeadlines` writes the headline file first, then the unguarded
`JSON.parse` of `dashboard_history.json` throws to the outer catch, leaving
the digest file corrupt and without the new record. -/
theorem C3_corrupt_digest_counterexample :
    (saveHeadlines (.ok []) .corrupt [Json.obj [("title", Json.str "A")]]).1 =
      FileState.ok [Json.str "A"] ∧
    (saveHeadlines (.ok []) .corrupt [Json.obj [("title", Json.str "A")]]).2 =
      FileState.corrupt ∧
    FileState.corrupt ≠ FileState.ok [Json.obj [("title", Json.str "A")]] :=
  ⟨rfl, rfl, fun h => FileState.noConfusion h⟩

/-- C3 (amended): a missing history file is always read as empty, an
unparsable headline-history file is read as empty (caught and logged, never
fatal), and the dashboard read of the digest file also recovers to empty; but
inside the persistence step an unparsable digest-history file aborts the
digest append for that cycle — the headline store is still updated, the
digest store keeps its corrupt content, and the cycle itself continues (the
catch only logs). -/
theorem C3_read_recovery_amended (hist : FileState) (items : List Json)
    (hn : Json.null ∉ items) :
    getPastHeadlines .missing = [] ∧ getPastHeadlines .corrupt = [] ∧
    apiDashboardHistory .missing = [] ∧ apiDashboardHistory .corrupt = [] ∧
    (saveHeadlines hist .corrupt items).1 =
      .ok (takeLast 50 (getPastHeadlines hist ++ items.map titleOf)) ∧
    (saveHeadlines hist .corrupt items).2 = .corrupt ∧
    (saveHeadlines hist .missing items).1 =
      .ok (takeLast 50 (getPastHeadlines hist ++ items.map titleOf)) ∧
    (saveHeadlines hist .missing items).2 = .ok (takeLast 20 items) := by
  have h50 := trim_eq_takeLast 50 (getPastHeadlines hist ++ items.map titleOf)
  have h20 := trim_eq_takeLast 20 items
  simp only [List.length_append, List.length_map, gt_iff_lt] at h50 h20
  refine ⟨rfl, rfl, rfl, rfl, ?_, ?_, ?_, ?_⟩ <;>
    simp [saveHeadlines, titlesOf_eq_map items hn, h50, h20]

/-- C3 witness: the amended statement at a concrete store and one concrete
well-formed item. -/
theorem C3_read_recovery_amended_witness :
    Json.null ∉ [Json.obj [("title", Json.str "A")]] ∧
    (saveHeadlines (.ok []) .missing [Json.obj [("title", Json.str "A")]]).2 =
      .ok (takeLast 20 [Json.obj [("title", Json.str "A")]]) :=
  ⟨by simp,
   (C3_read_recovery_amended (.ok []) [Json.obj [("title", Json.str "A")]] (by simp)).2.2.2.2.2.2.2⟩


theorem titlesOf_toJson (batch : List NewsItem) :
    titlesOf (batch.map NewsItem.toJson) = .ok (batch.map (fun it => Json.str it.title)) := by
  induction batch with
  | nil => rfl
  | cons it rest ih =>
    simp only [List.map_cons, titlesOf, NewsItem.toJson, jsGet, jsLookup, ih]
    rfl

theorem saveHeadlines_ok_ok (h d : List Json) (batch : List NewsItem) :
    saveHeadlines (.ok h) (.ok d) (batch.map NewsItem.toJson) =
      (.ok (takeLast 50 (h ++ batch.map (fun it => Json.str it.title))),
       .ok (takeLast 20 (d ++ batch.map NewsItem.toJson))) := by
  have h50 := trim_eq_takeLast 50 (h ++ batch.map (fun it => Json.str it.title))
  have h20 := trim_eq_takeLast 20 (d ++ batch.map NewsItem.toJson)
  simp only [List.length_append, List.length_map, gt_iff_lt] at h50 h20
  simp [saveHeadlines, titlesOf_toJson, getPastHeadlines, h50, h20]

theorem runAppends_fold (batches : List (List NewsItem)) :
    ∀ h d : List Json, h.length ≤ 50 → d.length ≤ 20 →
      batches.foldl
          (fun st batch => saveHeadlines st.1 st.2 (batch.map NewsItem.toJson))
          (.ok h, .ok d) =
        (.ok (takeLast 50 (h ++ batches.flatten.map (fun it => Json.str it.title))),
         .ok (takeLast 20 (d ++ batches.flatten.map NewsItem.toJson))) := by
  induction batches with
  | nil =>
    intro h d h50 d20
    simp [takeLast_eq_self h50, takeLast_eq_self d20]
  | cons b bs ih =>
    intro h d h50 d20
    simp only [List.foldl_cons, saveHeadlines_ok_ok]
    rw [ih _ _ (length_takeLast_le _ _) (length_takeLast_le _ _),
      takeLast_append_takeLast, takeLast_append_takeLast]
    simp [List.append_assoc]

/-- C1: for every sequence of persistence calls starting from fresh stores,
after each call the stored headline history is exactly the 50 most recently
appended titles (FIFO eviction from the front) and the stored digest history
is exactly the 20 most recently appended records, so both caps always hold.
(`batches.flatten` is the full logical history of the append sequence; the
statement quantifies over all sequences, hence over every prefix.) -/
theorem C1_history_caps_and_fifo (batches : List (List NewsItem)) :
    (runAppends batches).1 =
      .ok (takeLast 50 (batches.flatten.map (fun it => Json.str it.title))) ∧
    (runAppends batches).2 =
      .ok (takeLast 20 (batches.flatten.map NewsItem.toJson)) ∧
    (takeLast 50 (batches.flatten.map (fun it => Json.str it.title))).length ≤ 50 ∧
    (takeLast 20 (batches.flatten.map NewsItem.toJson)).length ≤ 20 := by
  have hfold := runAppends_fold batches [] [] (by simp) (by simp)
  refine ⟨?_, ?_, length_takeLast_le _ _, length_takeLast_le _ _⟩ <;>
    simp only [runAppends, hfold, List.nil_append]

theorem jsGet_eq_ok {j : Json} {key : String} {v : Option Json}
    (h : jsGet j key = .ok v) : j ≠ Json.null ∧ jsLookup j key = v := by
  cases j <;> simp_all [jsGet, jsLookup]

theorem filterE_typeTest_eq (tag : String) (items : List Json) (hn : Json.null ∉ items) :
    filterE (typeTestE tag) items = .ok (items.filter (isType tag)) := by
  induction items with
  | nil => rfl
  | cons a as ih =>
    have ha : a ≠ Json.null := fun e => hn (e ▸ List.mem_cons_self a as)
    have has : Json.null ∉ as := fun m => hn (List.mem_cons_of_mem _ m)
    simp only [filterE, typeTestE, jsGet_of_ne_null a "type" ha, ih has, List.filter_cons,
      isType]

theorem generateHtml_ok (items : List Json) (t : String) (hn : Json.null ∉ items) :
    generateHtml items t =
      .ok (htmlFrame t
        (if (items.filter (isType "good")).length > 0 then
           goodSection (cardsJoin (items.filter (isType "good")) "#27ae60") else "")
        (if (items.filter (isType "shocking")).length > 0 then
           shockSection (cardsJoin (items.filter (isType "shocking")) "#c0392b") else "")) := by
  simp only [generateHtml, filterE_typeTest_eq _ _ hn]

theorem saveHeadlines_spec (hist dash : FileState) (items : List Json)
    (hn : Json.null ∉ items) (hd : dash ≠ .corrupt) :
    saveHeadlines hist dash items =
      (.ok (takeLast 50 (getPastHeadlines hist ++ items.map titleOf)),
       .ok (takeLast 20 (apiDashboardHistory dash ++ items))) := by
  have h50 := trim_eq_takeLast 50 (getPastHeadlines hist ++ items.map titleOf)
  simp only [List.length_append, List.length_map, gt_iff_lt] at h50
  cases dash with
  | corrupt => exact absurd rfl hd
  | missing =>
    have h20 := trim_eq_takeLast 20 items
    simp only [gt_iff_lt] at h20
    simp [saveHeadlines, titlesOf_eq_map items hn, h50, h20, apiDashboardHistory]
  | ok content =>
    have h20 := trim_eq_takeLast 20 (content ++ items)
    simp only [List.length_append, gt_iff_lt] at h20
    simp [saveHeadlines, titlesOf_eq_map items hn, h50, h20, apiDashboardHistory]

/-- C7: rendering a news list whose items all carry the category tag
"shocking" (a `type` field holding that string) yields the document whose
good-section slot is the empty string — the good section is omitted entirely
— and whose shocking section holds exactly one card per input item, in input
order. -/
theorem C7_all_shocking_rendering (items : List Json) (t : String) (hne : items ≠ [])
    (hall : ∀ item ∈ items, jsGet item "type" = .ok (some (Json.str "shocking"))) :
    generateHtml items t =
      .ok (htmlFrame t ""
        (shockSection (String.join (items.map (fun item => createCard item "#c0392b"))))) := by
  have hn : Json.null ∉ items := fun m => by
    have h0 := hall _ m
    simp [jsGet] at h0
  have hgood : items.filter (isType "good") = [] := by
    rw [List.filter_eq_nil_iff]
    intro a hma
    have h2 := (jsGet_eq_ok (hall a hma)).2
    simp [isType, h2, isTypeVal]
  have hshock : items.filter (isType "shocking") = items := by
    rw [List.filter_eq_self]
    intro a hma
    have h2 := (jsGet_eq_ok (hall a hma)).2
    simp [isType, h2, isTypeVal]
  rw [generateHtml_ok items t hn, hgood, hshock]
  simp [cardsJoin, List.length_pos, hne]

/-- C7 witness: one concrete shocking item. -/
theorem C7_all_shocking_rendering_witness :
    (∀ item ∈ [Json.obj [("title", Json.str "T"), ("summary", Json.str "S"),
        ("type", Json.str "shocking")]],
      jsGet item "type" = .ok (some (Json.str "shocking"))) ∧
    generateHtml [Json.obj [("title", Json.str "T"), ("summary", Json.str "S"),
        ("type", Json.str "shocking")]] "w" =
      .ok (htmlFrame "w" ""
        (shockSection (String.join ([Json.obj [("title", Json.str "T"),
            ("summary", Json.str "S"), ("type", Json.str "shocking")]].map
          (fun item => createCard item "#c0392b"))))) := by
  have hall : ∀ item ∈ [Json.obj [("title", Json.str "T"), ("summary", Json.str "S"),
      ("type", Json.str "shocking")]],
      jsGet item "type" = .ok (some (Json.str "shocking")) := by
    intro item him
    rw [List.mem_singleton] at him
    subst him
    rfl
  exact ⟨hall, C7_all_shocking_rendering _ "w" (List.cons_ne_nil _ _) hall⟩

/-- C6 counterexample: extraction succeeds with the one-element news array
`[null]`, yet the cycle persists nothing — `item.type` inside the renderer's
filter throws a `TypeError` on the `null` item, the promise rejects, and
neither store (nor even the next-run timestamp) is updated, although the
claim requires the items to be appended to both stores. -/
theorem C6_null_item_counterexample :
    extractNews "\x7b\"news\":[null]\x7d" = some [Json.null] ∧
    runBot ⟨.ok [], .ok [], none⟩ (some "\x7b\"news\":[null]\x7d") true "t" 0 =
      ⟨.ok [], .ok [], none⟩ ∧
    FileState.ok ([] : List Json) ≠ FileState.ok [Json.null] := by
  refine ⟨rfl, rfl, ?_⟩
  simp

/-- C6 (amended): whenever extraction succeeds with at least one item, none
of the items is JSON `null` (a `null` item makes the renderer throw, aborting
the cycle before persistence) and the digest-history file is parsable, the
new items are appended to both history stores with the same result whether
mail dispatch succeeds or fails; and whenever extraction fails or yields zero
items, neither store changes. -/
theorem C6_persist_regardless_of_mail (st : BotState) (content : String)
    (items : List Json) (t : String) (now : Int)
    (hx : extractNews content = some items) (hne : items ≠ [])
    (hn : Json.null ∉ items) (hd : st.dash ≠ .corrupt) :
    (∀ mailOk : Bool,
      runBot st (some content) mailOk t now =
        { hist := .ok (takeLast 50 (getPastHeadlines st.hist ++ items.map titleOf)),
          dash := .ok (takeLast 20 (apiDashboardHistory st.dash ++ items)),
          nextRunTime := some (now + 10 * 60000) }) ∧
    (∀ (mailOk : Bool) (c2 : String), extractNews c2 = none ∨ extractNews c2 = some [] →
      (runBot st (some c2) mailOk t now).hist = st.hist ∧
      (runBot st (some c2) mailOk t now).dash = st.dash) := by
  constructor
  · intro mailOk
    have hgen := generateHtml_ok items t hn
    have hsv := saveHeadlines_spec st.hist st.dash items hn hd
    have hlen : items.length > 0 := by
      cases items with
      | nil => exact absurd rfl hne
      | cons a as => simp
    cases mailOk <;> simp [runBot, hx, hlen, hgen, hsv, sendEmailResult]
  · intro mailOk c2 hc2
    rcases hc2 with h | h <;> simp [runBot, h]

/-- C6 witness: a concrete successful cycle over concrete stores; the state
after the cycle is the same for failed mail dispatch as the claim requires,
with both stores appended. -/
theorem C6_persist_regardless_of_mail_witness :
    runBot ⟨.ok [], .ok [], none⟩
        (some "\x7b\"news\":[\x7b\"title\":\"A\",\"type\":\"good\"\x7d]\x7d") false "t" 0 =
      { hist := .ok [Json.str "A"],
        dash := .ok [Json.obj [("title", Json.str "A"), ("type", Json.str "good")]],
        nextRunTime := some (0 + 10 * 60000) } :=
  (C6_persist_regardless_of_mail ⟨.ok [], .ok [], none⟩
      "\x7b\"news\":[\x7b\"title\":\"A\",\"type\":\"good\"\x7d]\x7d"
      [Json.obj [("title", Json.str "A"), ("type", Json.str "good")]] "t" 0
      rfl (List.cons_ne_nil _ _) (by simp) (by simp)).1 false

/-- C10 counterexample: in the list `[X, null]`, where X is a record with no
`type` field, X appears in no section, but the persistence step appends
nothing at all — `n.title` on the `null` companion throws inside
`saveHeadlines`, so X's title is **not** appended to the headline store and
X's record is **not** appended to the digest store, contrary to the claim. -/
theorem C10_null_companion_counterexample :
    isType "good" (Json.obj [("title", Json.str "X")]) = false ∧
    isType "shocking" (Json.obj [("title", Json.str "X")]) = false ∧
    saveHeadlines (.ok []) (.ok []) [Json.obj [("title", Json.str "X")], Json.null] =
      (FileState.ok [], FileState.ok []) ∧
    FileState.ok ([] : List Json) ≠ FileState.ok [Json.str "X", Json.null] := by
  refine ⟨rfl, rfl, rfl, ?_⟩
  simp

/-- C10 (amended): in a news list without `null` items, an item whose `type`
field is neither the string "good" nor the string "shocking" (including an
absent or non-string field) appears in neither section — rendering the list
equals rendering its restriction to good/shocking items — while the
persistence step (when the digest file is parsable) still appends the item's
title to the headline store and the full record to the digest store, both
lists then trimmed to their caps. -/
theorem C10_unknown_category_skipped_but_persisted (items : List Json) (item : Json)
    (t : String) (hist dash : FileState)
    (hmem : item ∈ items) (hn : Json.null ∉ items)
    (hg : isType "good" item = false) (hs : isType "shocking" item = false)
    (hd : dash ≠ .corrupt) :
    generateHtml items t =
      generateHtml (items.filter (fun i => isType "good" i || isType "shocking" i)) t ∧
    item ∉ items.filter (isType "good") ∧
    item ∉ items.filter (isType "shocking") ∧
    saveHeadlines hist dash items =
      (.ok (takeLast 50 (getPastHeadlines hist ++ items.map titleOf)),
       .ok (takeLast 20 (apiDashboardHistory dash ++ items))) ∧
    titleOf item ∈ getPastHeadlines hist ++ items.map titleOf ∧
    item ∈ apiDashboardHistory dash ++ items := by
  have hnf : Json.null ∉ items.filter (fun i => isType "good" i || isType "shocking" i) :=
    fun m => hn (List.mem_filter.mp m).1
  refine ⟨?_, ?_, ?_, saveHeadlines_spec hist dash items hn hd,
    List.mem_append_right _ (List.mem_map_of_mem titleOf hmem),
    List.mem_append_right _ hmem⟩
  · rw [generateHtml_ok items t hn, generateHtml_ok _ t hnf]
    rw [List.filter_filter, List.filter_filter]
    have e1 : List.filter (fun a => isType "good" a && (isType "good" a || isType "shocking" a)) items
        = List.filter (isType "good") items := by
      refine List.filter_congr ?_
      intro a _
      cases h1 : isType "good" a <;> simp [h1]
    have e2 : List.filter (fun a => isType "shocking" a && (isType "good" a || isType "shocking" a)) items
        = List.filter (isType "shocking") items := by
      refine List.filter_congr ?_
      intro a _
      cases h1 : isType "shocking" a <;> simp [h1]
    rw [e1, e2]
  · intro m
    have h2 := (List.mem_filter.mp m).2
    rw [hg] at h2
    exact Bool.noConfusion h2
  · intro m
    have h2 := (List.mem_filter.mp m).2
    rw [hs] at h2
    exact Bool.noConfusion h2

/-- C10 witness: a single-element list holding one record without a `type`
field — it lands in no section, and persistence stores its title and record. -/
theorem C10_unknown_category_witness :
    saveHeadlines (.ok []) (.ok []) [Json.obj [("title", Json.str "X")]] =
      (FileState.ok [Json.str "X"], FileState.ok [Json.obj [("title", Json.str "X")]]) ∧
    Json.obj [("title", Json.str "X")] ∉
      [Json.obj [("title", Json.str "X")]].filter (isType "good") :=
  ⟨(C10_unknown_category_skipped_but_persisted [Json.obj [("title", Json.str "X")]]
      (Json.obj [("title", Json.str "X")]) "t" (.ok []) (.ok [])
      (List.mem_singleton.mpr rfl) (by simp) rfl rfl (by simp)).2.2.2.1,
   (C10_unknown_category_skipped_but_persisted [Json.obj [("title", Json.str "X")]]
      (Json.obj [("title", Json.str "X")]) "t" (.ok []) (.ok [])
      (List.mem_singleton.mpr rfl) (by simp) rfl rfl (by simp)).2.1⟩

theorem strBody_closeQuote (rest : List Char) : strBody ('"' :: rest) = some ([], rest) := by
  rw [strBody.eq_def]
  simp

theorem strBody_escJson (s : List Char) (hcl : ∀ c ∈ s, 32 ≤ c.toNat) (rest : List Char) :
    strBody (escJson s ++ '"' :: rest) = some (s, rest) := by
  induction s with
  | nil => exact strBody_closeQuote rest
  | cons c cs ih =>
    have hcs : ∀ x ∈ cs, 32 ≤ x.toNat := fun x hx => hcl x (List.mem_cons_of_mem _ hx)
    have hc : 32 ≤ c.toNat := hcl c (List.mem_cons_self _ _)
    by_cases h1 : c = '"'
    · subst h1
      have hsh : escJson ('"' :: cs) ++ '"' :: rest = '\\' :: '"' :: (escJson cs ++ '"' :: rest) := by
        simp [escJson, escJsonChar]
      rw [hsh, strBody.eq_def]
      simp [escMap, ih hcs]
    · by_cases h2 : c = '\\'
      · subst h2
        have hsh : escJson ('\\' :: cs) ++ '"' :: rest = '\\' :: '\\' :: (escJson cs ++ '"' :: rest) := by
          simp [escJson, escJsonChar]
        rw [hsh, strBody.eq_def]
        simp [escMap, ih hcs]
      · have hsh : escJson (c :: cs) ++ '"' :: rest = c :: (escJson cs ++ '"' :: rest) := by
          simp [escJson, escJsonChar, h1, h2]
        rw [hsh, strBody.eq_def]
        simp [h1, h2, ih hcs, show ¬ c.toNat < 32 by omega]

theorem jsonVal_strLit (s : String) (hcl : ∀ c ∈ s.data, 32 ≤ c.toNat) (rest : List Char) (f : Nat) :
    jsonVal (f + 1) (strLit s ++ rest) = some (.str s, rest) := by
  have hsh : strLit s ++ rest = '"' :: (escJson s.data ++ '"' :: rest) := by
    simp [strLit]
  rw [hsh]
  have h0 : jsonVal (f + 1) ('"' :: (escJson s.data ++ '"' :: rest)) =
      match strBody (escJson s.data ++ '"' :: rest) with
      | some (p, r) => some (.str (String.mk p), r)
      | none => none := rfl
  rw [h0, strBody_escJson s.data hcl rest]

theorem fieldsText_cons_head (p : String × String) (l : List (String × String)) :
    ∃ t, fieldsText (p :: l) = '"' :: t := by
  obtain ⟨k, v⟩ := p
  cases l with
  | nil => exact ⟨escJson k.data ++ '"' :: (':' :: strLit v), by simp [fieldsText, strLit]⟩
  | cons q m =>
    exact ⟨escJson k.data ++ '"' :: (':' :: (strLit v ++ ',' :: fieldsText (q :: m))),
      by simp [fieldsText, strLit]⟩

theorem jsonVal_objText (fields : List (String × String)) (hne : fields ≠ [])
    (hcl : cleanFields fields) (rest : List Char) (fuel : Nat)
    (hf : 2 * fields.length + 2 ≤ fuel) :
    jsonVal fuel (objText fields ++ rest) =
      some (.obj (fields.map (fun p => (p.1, Json.str p.2))), rest) := by
  induction fields generalizing fuel rest with
  | nil => exact absurd rfl hne
  | cons p l ih =>
    obtain ⟨k, v⟩ := p
    have hkc : ∀ c ∈ k.data, 32 ≤ c.toNat := (hcl _ (List.mem_cons_self _ _)).1
    have hvc : ∀ c ∈ v.data, 32 ≤ c.toNat := (hcl _ (List.mem_cons_self _ _)).2
    obtain ⟨f2, rfl⟩ : ∃ f2, fuel = (f2 + 1) + 1 := ⟨fuel - 2, by omega⟩
    cases l with
    | nil =>
      have hsh : objText [(k, v)] ++ rest =
          '\x7b' :: ('"' :: (escJson k.data ++ '"' :: (':' :: (strLit v ++ '\x7d' :: rest)))) := by
        simp [objText, fieldsText, strLit]
      rw [hsh, jsonVal.eq_def]
      simp [wsSkip, List.dropWhile_cons, isJsonWs, strBody_escJson k.data hkc,
        jsonVal_strLit v hvc _ f2]
    | cons q m =>
      have hsh : objText ((k, v) :: q :: m) ++ rest =
          '\x7b' :: ('"' :: (escJson k.data ++ '"' ::
            (':' :: (strLit v ++ ',' :: (fieldsText (q :: m) ++ '\x7d' :: rest))))) := by
        simp [objText, fieldsText, strLit]
      have hlm : cleanFields (q :: m) := fun x hx => hcl x (List.mem_cons_of_mem _ hx)
      have hgd : (List.dropWhile isJsonWs (fieldsText (q :: m) ++ '\x7d' :: rest)).head?.getD ' '
          = '"' := by
        obtain ⟨t, ht⟩ := fieldsText_cons_head q m
        rw [ht]
        simp [List.dropWhile_cons, isJsonWs]
      have hre : jsonVal (f2 + 1) ('\x7b' :: (fieldsText (q :: m) ++ '\x7d' :: rest)) =
          some (.obj ((q :: m).map (fun x => (x.1, Json.str x.2))), rest) := by
        have hob : objText (q :: m) ++ rest = '\x7b' :: (fieldsText (q :: m) ++ '\x7d' :: rest) := by
          simp [objText]
        rw [← hob]
        refine ih (List.cons_ne_nil _ _) hlm rest (f2 + 1) ?_
        simp only [List.length_cons] at hf ⊢
        omega
      rw [hsh, jsonVal.eq_def]
      simp [wsSkip, List.dropWhile_cons, isJsonWs, strBody_escJson k.data hkc,
        jsonVal_strLit v hvc _ f2, hgd, hre]

end NewsBot

namespace NewsBot

theorem cleanFields_of_item (it : NewsItem) (hc : cleanItem it) :
    cleanFields [("title", it.title), ("summary", it.summary), ("type", it.category)] := by
  obtain ⟨h1, h2, h3⟩ := hc
  intro p hp
  simp only [List.mem_cons, List.not_mem_nil, or_false] at hp
  rcases hp with rfl | rfl | rfl
  · exact ⟨show ∀ c ∈ "title".data, 32 ≤ c.toNat by decide, fun c hcm => (h1 c hcm).2⟩
  · exact ⟨show ∀ c ∈ "summary".data, 32 ≤ c.toNat by decide, fun c hcm => (h2 c hcm).2⟩
  · exact ⟨show ∀ c ∈ "type".data, 32 ≤ c.toNat by decide, fun c hcm => (h3 c hcm).2⟩

theorem jsonVal_itemText (it : NewsItem) (hc : cleanItem it) (rest : List Char) (fuel : Nat)
    (hf : 8 ≤ fuel) :
    jsonVal fuel (itemText it ++ rest) = some (NewsItem.toJson it, rest) := by
  have h0 := jsonVal_objText
    [("title", it.title), ("summary", it.summary), ("type", it.category)]
    (List.cons_ne_nil _ _) (cleanFields_of_item it hc) rest fuel (by simp; omega)
  simpa [NewsItem.toJson, itemText] using h0

theorem itemsText_cons_head (x : NewsItem) (l : List NewsItem) :
    ∃ t, itemsText (x :: l) = '\x7b' :: t := by
  cases l with
  | nil => exact ⟨fieldsText [("title", x.title), ("summary", x.summary), ("type", x.category)]
      ++ ['\x7d'], by simp [itemsText, itemText, objText]⟩
  | cons y m =>
    exact ⟨(fieldsText [("title", x.title), ("summary", x.summary), ("type", x.category)]
      ++ ['\x7d']) ++ ',' :: itemsText (y :: m), by simp [itemsText, itemText, objText]⟩

theorem jsonVal_arrItems (items : List NewsItem) (hc : ∀ it ∈ items, cleanItem it)
    (rest : List Char) (fuel : Nat) (hf : 10 * items.length + 2 ≤ fuel) :
    jsonVal fuel ('[' :: (itemsText items ++ ']' :: rest)) =
      some (.arr (items.map NewsItem.toJson), rest) := by
  induction items generalizing fuel rest with
  | nil =>
    obtain ⟨f, rfl⟩ : ∃ f, fuel = f + 1 := ⟨fuel - 1, by omega⟩
    rw [jsonVal.eq_def]
    simp [wsSkip, List.dropWhile_cons, isJsonWs, itemsText]
  | cons it more ih =>
    obtain ⟨f, rfl⟩ : ∃ f, fuel = f + 1 := ⟨fuel - 1, by omega⟩
    have hit : cleanItem it := hc it (List.mem_cons_self _ _)
    have hmore : ∀ x ∈ more, cleanItem x := fun x hx => hc x (List.mem_cons_of_mem _ hx)
    have hf8 : 8 ≤ f := by
      simp only [List.length_cons] at hf
      omega
    cases more with
    | nil =>
      have hsh : '[' :: (itemsText [it] ++ ']' :: rest) =
          '[' :: ('\x7b' :: (fieldsText [("title", it.title), ("summary", it.summary),
            ("type", it.category)] ++ '\x7d' :: (']' :: rest))) := by
        simp [itemsText, itemText, objText]
      have hel : jsonVal f ('\x7b' :: (fieldsText [("title", it.title), ("summary", it.summary),
          ("type", it.category)] ++ '\x7d' :: (']' :: rest))) =
          some (NewsItem.toJson it, ']' :: rest) := by
        have he : itemText it ++ ']' :: rest =
            '\x7b' :: (fieldsText [("title", it.title), ("summary", it.summary),
              ("type", it.category)] ++ '\x7d' :: (']' :: rest)) := by
          simp [itemText, objText]
        rw [← he]
        exact jsonVal_itemText it hit _ f hf8
      rw [hsh, jsonVal.eq_def]
      simp [wsSkip, List.dropWhile_cons, isJsonWs, hel]
    | cons it2 more2 =>
      have hsh : '[' :: (itemsText (it :: it2 :: more2) ++ ']' :: rest) =
          '[' :: ('\x7b' :: (fieldsText [("title", it.title), ("summary", it.summary),
            ("type", it.category)] ++ '\x7d' :: (',' :: (itemsText (it2 :: more2) ++ ']' :: rest)))) := by
        simp [itemsText, itemText, objText]
      have hel : jsonVal f ('\x7b' :: (fieldsText [("title", it.title), ("summary", it.summary),
          ("type", it.category)] ++ '\x7d' :: (',' :: (itemsText (it2 :: more2) ++ ']' :: rest)))) =
          some (NewsItem.toJson it, ',' :: (itemsText (it2 :: more2) ++ ']' :: rest)) := by
        have he : itemText it ++ ',' :: (itemsText (it2 :: more2) ++ ']' :: rest) =
            '\x7b' :: (fieldsText [("title", it.title), ("summary", it.summary),
              ("type", it.category)] ++ '\x7d' :: (',' :: (itemsText (it2 :: more2) ++ ']' :: rest))) := by
          simp [itemText, objText]
        rw [← he]
        exact jsonVal_itemText it hit _ f hf8
      have hgd : (List.dropWhile isJsonWs (itemsText (it2 :: more2) ++ ']' :: rest)).head?.getD ' '
          = '\x7b' := by
        obtain ⟨t, ht⟩ := itemsText_cons_head it2 more2
        rw [ht]
        simp [List.dropWhile_cons, isJsonWs]
      have hre : jsonVal f ('[' :: (itemsText (it2 :: more2) ++ ']' :: rest)) =
          some (.arr ((it2 :: more2).map NewsItem.toJson), rest) := by
        refine ih hmore rest f ?_
        simp only [List.length_cons] at hf ⊢
        omega
      rw [hsh, jsonVal.eq_def]
      simp [wsSkip, List.dropWhile_cons, isJsonWs, hel, hgd, hre]


theorem mem_escJsonChar {c a : Char} (hm : c ∈ escJsonChar a) : c = a ∨ c = '\\' ∨ c = '"' := by
  by_cases h1 : a = '"'
  · subst h1
    simp [escJsonChar] at hm
    rcases hm with rfl | rfl
    · exact Or.inr (Or.inl rfl)
    · exact Or.inr (Or.inr rfl)
  · by_cases h2 : a = '\\'
    · subst h2
      simp [escJsonChar] at hm
      exact Or.inr (Or.inl hm)
    · simp [escJsonChar, h1, h2] at hm
      exact Or.inl hm

theorem noBT_escJson (s : List Char) (h : ∀ c ∈ s, c ≠ '`') : ∀ c ∈ escJson s, c ≠ '`' := by
  induction s with
  | nil => simp [escJson]
  | cons a as ih =>
    intro c hm
    simp only [escJson, List.mem_append] at hm
    rcases hm with hm | hm
    · rcases mem_escJsonChar hm with rfl | rfl | rfl
      · exact h c (List.mem_cons_self _ _)
      · decide
      · decide
    · exact ih (fun x hx => h x (List.mem_cons_of_mem _ hx)) c hm

theorem noBT_strLit (s : String) (h : ∀ c ∈ s.data, c ≠ '`') : ∀ c ∈ strLit s, c ≠ '`' := by
  intro c hm
  simp [strLit] at hm
  rcases hm with rfl | hm | rfl
  · decide
  · exact noBT_escJson s.data h c hm
  · decide

theorem noBT_fieldsText (fields : List (String × String))
    (h : ∀ p ∈ fields, (∀ c ∈ p.1.data, c ≠ '`') ∧ (∀ c ∈ p.2.data, c ≠ '`')) :
    ∀ c ∈ fieldsText fields, c ≠ '`' := by
  induction fields with
  | nil => simp [fieldsText]
  | cons p l ih =>
    obtain ⟨k, v⟩ := p
    have hk := (h _ (List.mem_cons_self _ _)).1
    have hv := (h _ (List.mem_cons_self _ _)).2
    have hl := fun x hx => h x (List.mem_cons_of_mem _ hx)
    cases l with
    | nil =>
      simp only [fieldsText, List.forall_mem_append, List.forall_mem_cons]
      exact ⟨noBT_strLit k hk, by decide, noBT_strLit v hv⟩
    | cons q m =>
      simp only [fieldsText, List.forall_mem_append, List.forall_mem_cons]
      exact ⟨⟨noBT_strLit k hk, by decide, noBT_strLit v hv⟩, by decide, ih hl⟩

theorem noBT_itemText (it : NewsItem) (hc : cleanItem it) : ∀ c ∈ itemText it, c ≠ '`' := by
  obtain ⟨h1, h2, h3⟩ := hc
  simp only [itemText, objText, List.forall_mem_append, List.forall_mem_cons]
  refine ⟨by decide, ?_, by decide, by decide⟩
  refine noBT_fieldsText _ ?_
  intro p hp
  simp only [List.mem_cons, List.not_mem_nil, or_false] at hp
  rcases hp with rfl | rfl | rfl
  · exact ⟨show ∀ x ∈ "title".data, x ≠ '`' by decide, fun x hx => (h1 x hx).1⟩
  · exact ⟨show ∀ x ∈ "summary".data, x ≠ '`' by decide, fun x hx => (h2 x hx).1⟩
  · exact ⟨show ∀ x ∈ "type".data, x ≠ '`' by decide, fun x hx => (h3 x hx).1⟩

theorem noBT_itemsText (items : List NewsItem) (hc : ∀ it ∈ items, cleanItem it) :
    ∀ c ∈ itemsText items, c ≠ '`' := by
  induction items with
  | nil => simp [itemsText]
  | cons it more ih =>
    have hit := hc it (List.mem_cons_self _ _)
    have hmore := fun x hx => hc x (List.mem_cons_of_mem _ hx)
    cases more with
    | nil => exact noBT_itemText it hit
    | cons y m =>
      simp only [itemsText, List.forall_mem_append, List.forall_mem_cons]
      exact ⟨noBT_itemText it hit, by decide, ih hmore⟩

theorem noBT_minimalNews (items : List NewsItem) (hc : ∀ it ∈ items, cleanItem it) :
    ∀ c ∈ (minimalNewsText items).data, c ≠ '`' := by
  simp only [minimalNewsText, List.forall_mem_append, List.forall_mem_cons]
  exact ⟨by decide, noBT_strLit "news" (by decide), by decide, by decide,
    noBT_itemsText items hc, by decide, by decide⟩

theorem fenceStrip_id (pat : List Char) (t0 : List Char) (hp : pat = '`' :: t0) :
    ∀ (f : Nat) (s : List Char), (∀ c ∈ s, c ≠ '`') → fenceStrip pat f s = s := by
  intro f
  induction f with
  | zero => intro s _; rfl
  | succ f ih =>
    intro s hs
    cases s with
    | nil => rfl
    | cons c cs =>
      have hcb : c ≠ '`' := hs c (List.mem_cons_self _ _)
      have hnp : pat.isPrefixOf (c :: cs) = false := by
        subst hp
        simp only [List.isPrefixOf]
        simp [Ne.symm hcb]
      show fenceStrip pat (f + 1) (c :: cs) = c :: cs
      simp only [fenceStrip, hnp]
      simp [ih cs (fun x hx => hs x (List.mem_cons_of_mem _ hx))]

theorem replaceAllStr_id (pat : String) (t0 : List Char) (hp : pat.data = '`' :: t0)
    (s : List Char) (hs : ∀ c ∈ s, c ≠ '`') : replaceAllStr pat s = s :=
  fenceStrip_id pat.data t0 hp s.length s hs

theorem jsTrim_wrap (mid : List Char) :
    jsTrim ('\x7b' :: (mid ++ ['\x7d'])) = '\x7b' :: (mid ++ ['\x7d']) := by
  have h1 : List.dropWhile isJsonWs ('\x7b' :: (mid ++ ['\x7d'])) = '\x7b' :: (mid ++ ['\x7d']) := by
    simp [List.dropWhile_cons, isJsonWs]
  have h2 : ('\x7b' :: (mid ++ ['\x7d'])).reverse = '\x7d' :: (mid.reverse ++ ['\x7b']) := by
    simp
  have h3 : List.dropWhile isJsonWs ('\x7d' :: (mid.reverse ++ ['\x7b']))
      = '\x7d' :: (mid.reverse ++ ['\x7b']) := by
    simp [List.dropWhile_cons, isJsonWs]
  unfold jsTrim
  rw [h1, h2, h3, ← h2, List.reverse_reverse]

theorem lastIdxOf_wrap (mid : List Char) :
    lastIdxOf '\x7d' ('\x7b' :: (mid ++ ['\x7d'])) = some (mid.length + 1) := by
  have h2 : ('\x7b' :: (mid ++ ['\x7d'])).reverse = '\x7d' :: (mid.reverse ++ ['\x7b']) := by
    simp
  unfold lastIdxOf
  rw [h2]
  simp [List.findIdx?_cons]

theorem jsSubstring_full (l : List Char) : jsSubstring l 0 l.length = l := by
  simp [jsSubstring]

theorem itemText_length (it : NewsItem) : 10 ≤ (itemText it).length := by
  simp [itemText, objText, fieldsText, strLit, escJson, escJsonChar, List.length_append]

theorem itemsText_length (items : List NewsItem) :
    10 * items.length ≤ (itemsText items).length := by
  induction items with
  | nil => simp [itemsText]
  | cons it more ih =>
    have h1 := itemText_length it
    cases more with
    | nil => simpa [itemsText] using h1
    | cons y m =>
      have : itemsText (it :: y :: m) = itemText it ++ ',' :: itemsText (y :: m) := by
        simp [itemsText]
      rw [this]
      simp only [List.length_append, List.length_cons]
      simp only [List.length_cons] at ih ⊢
      omega

theorem jsonVal_minimalNews (items : List NewsItem) (hc : ∀ it ∈ items, cleanItem it)
    (fuel : Nat) (hf : 10 * items.length + 4 ≤ fuel) :
    jsonVal fuel ((minimalNewsText items).data) =
      some (.obj [("news", .arr (items.map NewsItem.toJson))], []) := by
  obtain ⟨f, rfl⟩ : ∃ f, fuel = f + 1 := ⟨fuel - 1, by omega⟩
  have hsh : (minimalNewsText items).data =
      '\x7b' :: ('"' :: (escJson "news".data ++ '"' ::
        (':' :: ('[' :: (itemsText items ++ ']' :: ('\x7d' :: [])))))) := by
    simp [minimalNewsText, strLit]
  have harr : jsonVal f ('[' :: (itemsText items ++ ']' :: ('\x7d' :: []))) =
      some (.arr (items.map NewsItem.toJson), ['\x7d']) :=
    jsonVal_arrItems items hc ['\x7d'] f (by omega)
  rw [hsh, jsonVal.eq_def]
  simp [wsSkip, List.dropWhile_cons, isJsonWs,
    strBody_escJson "news".data (by decide), harr]

theorem jsonParse_minimalNews (items : List NewsItem) (hc : ∀ it ∈ items, cleanItem it) :
    jsonParse (minimalNewsText items).data =
      some (.obj [("news", .arr (items.map NewsItem.toJson))]) := by
  have hlen : 10 * items.length + 4 ≤ (minimalNewsText items).data.length + 16 := by
    have h1 := itemsText_length items
    have h2 : (minimalNewsText items).data.length = (itemsText items).length + 11 := by
      simp [minimalNewsText, strLit, escJson, escJsonChar, List.length_append]
    omega
  unfold jsonParse
  rw [jsonVal_minimalNews items hc _ hlen]
  rfl

/-- C8: extraction is the identity on already-clean input — for every list of
news records with fence-free printable fields, feeding the minimal valid JSON
object holding the `news` array returns exactly that array. -/
theorem C8_clean_extraction_identity (items : List NewsItem)
    (hc : ∀ it ∈ items, cleanItem it) :
    extractNews (minimalNewsText items) = some (items.map NewsItem.toJson) := by
  have hbt := noBT_minimalNews items hc
  have hdata : (minimalNewsText items).data =
      '\x7b' :: ((strLit "news" ++ ':' :: '[' :: (itemsText items ++ [']'])) ++ ['\x7d']) := by
    simp [minimalNewsText]
  unfold extractNews
  rw [hdata] at hbt
  simp only [hdata]
  rw [jsTrim_wrap, replaceAllStr_id "```json" _ rfl _ hbt, replaceAllStr_id "```" _ rfl _ hbt]
  have hfind : (('\x7b' :: ((strLit "news" ++ ':' :: '[' :: (itemsText items ++ [']'])) ++ ['\x7d'])).findIdx?
      (fun x => x = '\x7b')) = some 0 := by
    simp [List.findIdx?_cons]
  have hsub : jsSubstring
      ('\x7b' :: ((strLit "news" ++ ':' :: '[' :: (itemsText items ++ [']'])) ++ ['\x7d'])) 0
      ((strLit "news" ++ ':' :: '[' :: (itemsText items ++ [']'])).length + 1 + 1) =
      '\x7b' :: ((strLit "news" ++ ':' :: '[' :: (itemsText items ++ [']'])) ++ ['\x7d']) := by
    have hl : ('\x7b' :: ((strLit "news" ++ ':' :: '[' :: (itemsText items ++ [']'])) ++ ['\x7d'])).length
        = (strLit "news" ++ ':' :: '[' :: (itemsText items ++ [']'])).length + 1 + 1 := by
      simp [List.length_append]
      omega
    rw [← hl, jsSubstring_full]
  simp only [hfind, lastIdxOf_wrap]
  rw [hsub, ← hdata, jsonParse_minimalNews items hc]
  rfl

/-- C8 witness: one concrete clean record round-trips through extraction. -/
theorem C8_clean_extraction_identity_witness :
    (∀ it ∈ [NewsItem.mk "A" "B" "good"], cleanItem it) ∧
    extractNews (minimalNewsText [NewsItem.mk "A" "B" "good"]) =
      some ([NewsItem.mk "A" "B" "good"].map NewsItem.toJson) := by
  have hcl : ∀ it ∈ [NewsItem.mk "A" "B" "good"], cleanItem it := by
    intro it hit
    rw [List.mem_singleton] at hit
    subst hit
    exact ⟨show ∀ c ∈ "A".data, c ≠ '`' ∧ 32 ≤ c.toNat by decide,
      show ∀ c ∈ "B".data, c ≠ '`' ∧ 32 ≤ c.toNat by decide,
      show ∀ c ∈ "good".data, c ≠ '`' ∧ 32 ≤ c.toNat by decide⟩
  exact ⟨hcl, C8_clean_extraction_identity _ hcl⟩

end NewsBot
